import Mathlib

/-
Shallow embedding of the admission-control and caching core of the repository:
the sliding-window rate limiter of src/backend/src/middleware/validate.js
(`createRateLimiter`) and the TTL cache of src/backend/src/services/cacheService.js
(`CacheService`).  JavaScript `Map` objects are embedded as association lists
with first-occurrence lookup, in-place replacement on `set`, and removal on
`delete`; `Date.now()` becomes an explicit `now : Int` argument threaded through
every operation; JavaScript values stored in the cache become the inductive
`JsVal`, whose `vnull` constructor is the JavaScript `null` that `get` also
returns for a missing key.
-/

-- ## Association-list model of a JavaScript Map

/-- `Map.get`: the value at the first entry whose key matches, if any. -/
def mapGet {α : Type} : List (String × α) → String → Option α
  | [], _ => none
  | e :: rest, k => if e.1 = k then some e.2 else mapGet rest k

/-- `Map.set`: replace the first entry with this key in place, else append. -/
def mapSet {α : Type} : List (String × α) → String → α → List (String × α)
  | [], k, v => [(k, v)]
  | e :: rest, k, v => if e.1 = k then (k, v) :: rest else e :: mapSet rest k v

/-- `Map.delete`: remove the first entry with this key. -/
def mapDelete {α : Type} : List (String × α) → String → List (String × α)
  | [], _ => []
  | e :: rest, k => if e.1 = k then rest else e :: mapDelete rest k

/-- A JavaScript `Map` never holds two entries with the same key; states built
by `mapSet` from the empty map satisfy this, and theorems that need it take it
as a hypothesis. -/
def keysNodup {α : Type} (m : List (String × α)) : Prop :=
  (m.map Prod.fst).Nodup

instance {α : Type} (m : List (String × α)) : Decidable (keysNodup m) := by
  unfold keysNodup; infer_instance

-- ## TTL cache (src/backend/src/services/cacheService.js)

/-- A JavaScript value as stored in the cache; `vnull` is JavaScript `null`. -/
inductive JsVal where
  | vnull
  | vnum (n : Int)
  | vstr (s : String)
deriving DecidableEq, Repr

/-- The object `{value, expiresAt, createdAt}` stored under each cache key. -/
structure CacheEntry where
  value : JsVal
  expiresAt : Int
  createdAt : Int
deriving DecidableEq, Repr

/-- The `this.cache` map of `CacheService`. -/
abbrev Cache := List (String × CacheEntry)

namespace CacheService

/-- `get(key)`: `null` when missing; when expired (`Date.now() > item.expiresAt`)
delete the entry and return `null`; otherwise the stored value.  Returns the
value together with the cache state after the call. -/
def get (c : Cache) (key : String) (now : Int) : JsVal × Cache :=
  match mapGet c key with
  | none => (JsVal.vnull, c)
  | some item =>
    if now > item.expiresAt then (JsVal.vnull, mapDelete c key)
    else (item.value, c)

/-- `set(key, value, ttl)`: store `{value, expiresAt: Date.now() + ttl,
createdAt: Date.now()}` under `key`. -/
def set (c : Cache) (key : String) (value : JsVal) (ttl now : Int) : Cache :=
  mapSet c key ⟨value, now + ttl, now⟩

/-- `has(key)`: `false` when missing; when expired delete the entry and return
`false`; otherwise `true`.  Returns the answer with the cache state after. -/
def has (c : Cache) (key : String) (now : Int) : Bool × Cache :=
  match mapGet c key with
  | none => (false, c)
  | some item =>
    if now > item.expiresAt then (false, mapDelete c key)
    else (true, c)

/-- `getOrSet(key, fetchFn, ttl)`: call `get`; if the result is not `null`
return it; otherwise invoke the supplier, store its value with `set`, and
return it.  The supplier is embedded as the value `supplier` it produces, and
the middle component of the result records whether it was invoked. -/
def getOrSet (c : Cache) (key : String) (supplier : JsVal) (ttl now : Int) :
    JsVal × Bool × Cache :=
  let r := get c key now
  if r.1 ≠ JsVal.vnull then (r.1, false, r.2)
  else (supplier, true, set r.2 key supplier ttl now)

/-- `cleanExpired()`: iterate the entries, deleting each one with
`Date.now() > item.expiresAt` and counting the deletions. -/
def cleanExpired (c : Cache) (now : Int) : Nat × Cache :=
  match c with
  | [] => (0, [])
  | e :: rest =>
    let r := cleanExpired rest now
    if now > e.2.expiresAt then (r.1 + 1, r.2) else (r.1, e :: r.2)

end CacheService

-- ## Sliding-window rate limiter (src/backend/src/middleware/validate.js)

/-- The `options` argument of `createRateLimiter`; a `none` field is an absent
property that takes the default. -/
structure RLOptions where
  windowMs : Option Int
  maxRequests : Option Int
  message : Option String
deriving DecidableEq, Repr

/-- The configuration a limiter instance closes over after defaulting. -/
structure RLConfig where
  windowMs : Int
  maxRequests : Int
  message : String
deriving DecidableEq, Repr

/-- The `X-RateLimit-Limit`, `X-RateLimit-Remaining` and `X-RateLimit-Reset`
headers; `reset` is the instant `now + windowMs` that the source renders as an
ISO date string. -/
structure RLHeaders where
  limit : Int
  remaining : Int
  reset : Int
deriving DecidableEq, Repr

/-- The HTTP 429 rejection response: status and JSON body fields.
`retryAfterSeconds` is the numeric `retryAfter` constant of the source and
`retryAfter` the string `` `${retryAfter} seconds` `` placed in the body. -/
structure RLRejection where
  status : Int
  success : Bool
  error : String
  retryAfterSeconds : Int
  retryAfter : String
deriving DecidableEq, Repr

/-- The observable outcome of one pass through the limiter middleware:
`allowed` is whether `next()` was reached, `headers` the rate-limit headers if
any were set, `rejection` the 429 response if one was sent. -/
structure RLResult where
  allowed : Bool
  headers : Option RLHeaders
  rejection : Option RLRejection
deriving DecidableEq, Repr

/-- `Math.ceil(a / b)` on integers with `b > 0`. -/
def ceilDiv (a b : Int) : Int := -((-a).fdiv b)

/-- `createRateLimiter(options)`: destructure with defaults and return the
middleware.  The source body contains no `throw`, so every path of the
`Except`-typed embedding returns `.ok`. -/
def createRateLimiter (opts : RLOptions) : Except String RLConfig :=
  .ok { windowMs := opts.windowMs.getD (15 * 60 * 1000),
        maxRequests := opts.maxRequests.getD 100,
        message := opts.message.getD
          "Too many requests from this IP, please try again later." }

/-- The per-client map `requestCounts` of timestamp arrays. -/
abbrev RequestMap := List (String × List Int)

/-- One pass of the middleware for a resolved `clientId` at time `now`:
lazily create the client's array, filter it to `timestamp > now - windowMs`,
store the filtered array back, then either reject with 429 (when the filtered
count reaches `maxRequests`) or push `now`, set the three headers and admit.
`validRequests[0]` of the source is embedded as `headD 0`; the reject branch
reads it only when the filtered array is nonempty, which holds whenever
`maxRequests ≥ 1`. -/
def rlStep (cfg : RLConfig) (st : RequestMap) (clientId : String) (now : Int) :
    RLResult × RequestMap :=
  let windowStart := now - cfg.windowMs
  let st1 := match mapGet st clientId with
             | some _ => st
             | none => mapSet st clientId []
  let requests := (mapGet st1 clientId).getD []
  let validRequests := requests.filter (fun t => decide (t > windowStart))
  let st2 := mapSet st1 clientId validRequests
  if (validRequests.length : Int) ≥ cfg.maxRequests then
    let retryAfter := ceilDiv (validRequests.headD 0 + cfg.windowMs - now) 1000
    (⟨false, none,
      some ⟨429, false, cfg.message, retryAfter, toString retryAfter ++ " seconds"⟩⟩,
     st2)
  else
    let newRequests := validRequests ++ [now]
    let st3 := mapSet st2 clientId newRequests
    (⟨true,
      some ⟨cfg.maxRequests,
            max 0 (cfg.maxRequests - (newRequests.length : Int)),
            now + cfg.windowMs⟩,
      none⟩,
     st3)

/-- Run a sequence of middleware passes for one client at the given times,
returning the list of admit/reject outcomes. -/
def runCalls (cfg : RLConfig) (clientId : String) : RequestMap → List Int → List Bool
  | _, [] => []
  | st, t :: ts =>
    let r := rlStep cfg st clientId t
    r.1.allowed :: runCalls cfg clientId r.2 ts

/-- The `requests` array the middleware reads for a client (empty when the
client is untracked). -/
def rlRequests (st : RequestMap) (clientId : String) : List Int :=
  (mapGet st clientId).getD []

/-- The `validRequests` array: the client's timestamps still inside the
trailing window at time `now`. -/
def rlValid (cfg : RLConfig) (st : RequestMap) (clientId : String) (now : Int) : List Int :=
  (rlRequests st clientId).filter (fun t => decide (t > now - cfg.windowMs))

-- ## Helper lemmas about the Map embedding

theorem mapGet_mapSet_self {α : Type} (m : List (String × α)) (k : String) (v : α) :
    mapGet (mapSet m k v) k = some v := by
  induction m with
  | nil => simp [mapGet, mapSet]
  | cons e rest ih =>
    by_cases h : e.1 = k
    · simp [mapSet, h, mapGet]
    · simp [mapSet, h, mapGet, ih]

theorem mapGet_mapSet_ne {α : Type} (m : List (String × α)) (k k' : String) (v : α)
    (h : k' ≠ k) : mapGet (mapSet m k v) k' = mapGet m k' := by
  induction m with
  | nil => simp [mapGet, mapSet, Ne.symm h]
  | cons e rest ih =>
    by_cases he : e.1 = k
    · simp [mapSet, he, mapGet, Ne.symm h]
    · by_cases he' : e.1 = k'
      · simp [mapSet, he, mapGet, he', h]
      · simp [mapSet, he, mapGet, he', ih]

theorem mapSet_mapSet {α : Type} (m : List (String × α)) (k : String) (a b : α) :
    mapSet (mapSet m k a) k b = mapSet m k b := by
  induction m with
  | nil => simp [mapSet]
  | cons e rest ih =>
    by_cases h : e.1 = k
    · simp [mapSet, h]
    · simp [mapSet, h, ih]

theorem mapGet_eq_none_of_forall_ne {α : Type} (m : List (String × α)) (k : String)
    (h : ∀ e ∈ m, e.1 ≠ k) : mapGet m k = none := by
  induction m with
  | nil => rfl
  | cons e rest ih =>
    have he := h e (List.mem_cons_self e rest)
    simp only [mapGet, he, if_false]
    exact ih (fun e' he' => h e' (List.mem_cons_of_mem e he'))

theorem mapGet_mapDelete_ne {α : Type} (m : List (String × α)) (k k' : String)
    (h : k' ≠ k) : mapGet (mapDelete m k) k' = mapGet m k' := by
  induction m with
  | nil => rfl
  | cons e rest ih =>
    by_cases he : e.1 = k
    · have : e.1 ≠ k' := fun hh => h (hh ▸ he ▸ rfl)
      simp [mapDelete, he, mapGet, this, Ne.symm h]
    · by_cases he' : e.1 = k'
      · simp [mapDelete, he, mapGet, he', h]
      · simp [mapDelete, he, mapGet, he', ih]

theorem mapGet_mapDelete_self {α : Type} (m : List (String × α)) (k : String)
    (h : keysNodup m) : mapGet (mapDelete m k) k = none := by
  induction m with
  | nil => rfl
  | cons e rest ih =>
    have hnd : keysNodup rest := (List.nodup_cons.mp h).2
    by_cases he : e.1 = k
    · have hnmem : e.1 ∉ rest.map Prod.fst := (List.nodup_cons.mp h).1
      simp only [mapDelete, if_pos he]
      refine mapGet_eq_none_of_forall_ne rest k (fun e' he' hk => ?_)
      exact hnmem (he ▸ hk ▸ List.mem_map_of_mem Prod.fst he')
    · simp [mapDelete, he, mapGet, ih hnd]

-- ## Unfolding lemmas for the limiter and the cache

/-- One middleware pass, written in terms of the filtered array `rlValid`:
reject with the 429 body when its length reaches the quota, else admit with
the three headers; in both cases the stored array is replaced (the lazily
created empty array collapses into the final `mapSet`). -/
theorem rlStep_eq (cfg : RLConfig) (st : RequestMap) (cid : String) (now : Int) :
    rlStep cfg st cid now =
      if ((rlValid cfg st cid now).length : Int) ≥ cfg.maxRequests then
        (⟨false, none, some ⟨429, false, cfg.message,
           ceilDiv ((rlValid cfg st cid now).headD 0 + cfg.windowMs - now) 1000,
           toString (ceilDiv ((rlValid cfg st cid now).headD 0 + cfg.windowMs - now) 1000)
             ++ " seconds"⟩⟩,
         mapSet st cid (rlValid cfg st cid now))
      else
        (⟨true, some ⟨cfg.maxRequests,
            max 0 (cfg.maxRequests - ((rlValid cfg st cid now ++ [now]).length : Int)),
            now + cfg.windowMs⟩, none⟩,
         mapSet st cid (rlValid cfg st cid now ++ [now])) := by
  cases hmg : mapGet st cid with
  | none =>
    simp only [rlStep, hmg, rlValid, rlRequests, mapGet_mapSet_self, Option.getD_none,
      Option.getD_some, mapSet_mapSet, List.filter_nil]
  | some l =>
    simp only [rlStep, hmg, rlValid, rlRequests, Option.getD_some, mapSet_mapSet]

/-- `getOrSet` on a live entry holding a non-null value is a pure cache hit:
the stored value is returned, the supplier is not invoked, the cache is
unchanged. -/
theorem getOrSet_hit (c : Cache) (key : String) (item : CacheEntry) (s : JsVal)
    (ttl now : Int) (hfind : mapGet c key = some item)
    (hlive : ¬ now > item.expiresAt) (hnn : item.value ≠ JsVal.vnull) :
    CacheService.getOrSet c key s ttl now = (item.value, false, c) := by
  simp [CacheService.getOrSet, CacheService.get, hfind, hlive, hnn]

/-- `getOrSet` on a missing key invokes the supplier and stores its value. -/
theorem getOrSet_miss (c : Cache) (key : String) (s : JsVal) (ttl now : Int)
    (hmiss : mapGet c key = none) :
    CacheService.getOrSet c key s ttl now =
      (s, true, mapSet c key ⟨s, now + ttl, now⟩) := by
  simp [CacheService.getOrSet, CacheService.get, hmiss, CacheService.set]

/-- The surviving entries of `cleanExpired` are exactly the unexpired ones,
in order, and the returned count is the number of expired ones. -/
theorem cleanExpired_filter_count (c : Cache) (now : Int) :
    (CacheService.cleanExpired c now).2 = c.filter (fun e => !decide (now > e.2.expiresAt))
    ∧ (CacheService.cleanExpired c now).1 = c.countP (fun e => decide (now > e.2.expiresAt)) := by
  induction c with
  | nil => exact ⟨rfl, rfl⟩
  | cons e rest ih =>
    by_cases he : now > e.2.expiresAt
    · constructor
      · simp [CacheService.cleanExpired, he, ih.1]
      · simp [CacheService.cleanExpired, he, ih.2, List.countP_cons]
    · constructor
      · simp [CacheService.cleanExpired, he, ih.1]
      · simp [CacheService.cleanExpired, he, ih.2, List.countP_cons]

/-- Lookup after `cleanExpired`: an expired entry is gone, an unexpired one
is unchanged. -/
theorem mapGet_cleanExpired (c : Cache) (now : Int) (hnd : keysNodup c) (k : String) :
    mapGet (CacheService.cleanExpired c now).2 k =
      (mapGet c k).bind (fun item => if now > item.expiresAt then none else some item) := by
  induction c with
  | nil => rfl
  | cons e rest ih =>
    have hnd' : keysNodup rest := (List.nodup_cons.mp hnd).2
    have hnmem : e.1 ∉ rest.map Prod.fst := (List.nodup_cons.mp hnd).1
    by_cases he : now > e.2.expiresAt
    · by_cases hk : e.1 = k
      · have hrest : mapGet rest k = none :=
          mapGet_eq_none_of_forall_ne rest k
            (fun e' he' hkk => hnmem (hk ▸ hkk ▸ List.mem_map_of_mem Prod.fst he'))
        have hfilter : mapGet (rest.filter (fun e => !decide (now > e.2.expiresAt))) k = none :=
          mapGet_eq_none_of_forall_ne _ k
            (fun e' he' hkk =>
              hnmem (hk ▸ hkk ▸ List.mem_map_of_mem Prod.fst (List.mem_of_mem_filter he')))
        simp [CacheService.cleanExpired, he, mapGet, hk, (cleanExpired_filter_count rest now).1,
          hfilter, he]
      · simp [CacheService.cleanExpired, he, mapGet, hk, ih hnd']
    · by_cases hk : e.1 = k
      · simp [CacheService.cleanExpired, he, mapGet, hk]
      · simp [CacheService.cleanExpired, he, mapGet, hk, ih hnd']

-- ## Run lemmas for the limiter

/-- During a run of calls all lying in `[t0, t0 + windowMs)` against a client
whose stored timestamps are all ≥ `t0`, no timestamp is ever filtered out, so
call number `i` is admitted exactly when fewer than `maxRequests` timestamps
are stored, i.e. when `l.length + i < maxRequests`. -/
theorem runCalls_window_aux (cfg : RLConfig) (cid : String) (t0 : Int) :
    ∀ (ts l : List Int),
      (∀ t ∈ ts, t0 ≤ t ∧ t < t0 + cfg.windowMs) →
      (∀ x ∈ l, t0 ≤ x) →
      runCalls cfg cid [(cid, l)] ts =
        (List.range ts.length).map
          (fun i => decide ((l.length : Int) + (i : Nat) < cfg.maxRequests)) := by
  intro ts
  induction ts with
  | nil =>
    intro l _ _
    rfl
  | cons t ts ih =>
    intro l hts hl
    have ht := hts t (List.mem_cons_self t ts)
    have hkeep : l.filter (fun x => decide (x > t - cfg.windowMs)) = l :=
      List.filter_eq_self.mpr (fun x hx => by
        have hx0 := hl x hx
        simp only [decide_eq_true_eq]
        omega)
    have hvalid : rlValid cfg [(cid, l)] cid t = l := by
      simp only [rlValid, rlRequests, mapGet, if_pos rfl, Option.getD_some]
      exact hkeep
    have hts' : ∀ u ∈ ts, t0 ≤ u ∧ u < t0 + cfg.windowMs :=
      fun u hu => hts u (List.mem_cons_of_mem t hu)
    rw [List.length_cons, List.range_succ_eq_map, List.map_cons, List.map_map]
    by_cases hc : ((l.length : Int) ≥ cfg.maxRequests)
    · have hstep : rlStep cfg [(cid, l)] cid t =
          (⟨false, none, some ⟨429, false, cfg.message,
             ceilDiv (l.headD 0 + cfg.windowMs - t) 1000,
             toString (ceilDiv (l.headD 0 + cfg.windowMs - t) 1000) ++ " seconds"⟩⟩,
           [(cid, l)]) := by
        rw [rlStep_eq, hvalid, if_pos hc]
        simp [mapSet]
      simp only [runCalls, hstep]
      refine List.cons_eq_cons.mpr ⟨?_, ?_⟩
      · exact (decide_eq_false (by push_cast; omega)).symm
      · rw [ih l hts' hl]
        have hfun : (fun i : Nat => decide ((l.length : Int) + (i : Nat) < cfg.maxRequests)) =
            ((fun i : Nat => decide ((l.length : Int) + (i : Nat) < cfg.maxRequests)) ∘ Nat.succ) :=
          funext fun i => by
            simp only [Function.comp_apply, decide_eq_decide]
            push_cast
            omega
        rw [← hfun]
    · have hstep : rlStep cfg [(cid, l)] cid t =
          (⟨true, some ⟨cfg.maxRequests,
              max 0 (cfg.maxRequests - ((l ++ [t]).length : Int)),
              t + cfg.windowMs⟩, none⟩,
           [(cid, l ++ [t])]) := by
        rw [rlStep_eq, hvalid, if_neg hc]
        simp [mapSet]
      have hl' : ∀ x ∈ l ++ [t], t0 ≤ x := by
        intro x hx
        rcases List.mem_append.mp hx with hx | hx
        · exact hl x hx
        · rw [List.mem_singleton.mp hx]
          exact ht.1
      simp only [runCalls, hstep]
      refine List.cons_eq_cons.mpr ⟨?_, ?_⟩
      · exact (decide_eq_true (by push_cast; omega)).symm
      · rw [ih (l ++ [t]) hts' hl']
        have hfun : (fun i : Nat => decide (((l ++ [t]).length : Int) + (i : Nat) < cfg.maxRequests)) =
            ((fun i : Nat => decide ((l.length : Int) + (i : Nat) < cfg.maxRequests)) ∘ Nat.succ) :=
          funext fun i => by
            simp only [Function.comp_apply, List.length_append, List.length_singleton,
              decide_eq_decide]
            push_cast
            omega
        rw [← hfun]

/-- The first call lazily registers the client, so a run from the empty map
equals a run from a map holding the client with no timestamps. -/
theorem rlStep_empty (cfg : RLConfig) (cid : String) (t : Int) :
    rlStep cfg [] cid t = rlStep cfg [(cid, [])] cid t := by
  simp [rlStep, mapGet, mapSet]

theorem runCalls_empty (cfg : RLConfig) (cid : String) (ts : List Int) :
    runCalls cfg cid [] ts = runCalls cfg cid [(cid, [])] ts := by
  cases ts with
  | nil => rfl
  | cons t ts => simp only [runCalls, rlStep_empty]

/-- The head of a `(· ≤ ·)`-sorted list of timestamps is the oldest one. -/
theorem headD_le_of_sorted (l : List Int) (hs : l.Pairwise (· ≤ ·)) :
    ∀ x ∈ l, l.headD 0 ≤ x := by
  cases l with
  | nil => intro x hx; cases hx
  | cons a rest =>
    intro x hx
    rcases List.mem_cons.mp hx with rfl | hx
    · exact le_rfl
    · exact (List.pairwise_cons.mp hs).1 x hx

-- ## Claim theorems

/-- C1: Sliding-window admission.  For every limiter configuration and every
sequence of calls for one fresh client whose times all lie in an interval
`[t0, t0 + windowMs)` (a window shorter than `windowMs`), call number `i` is
admitted exactly when `i < maxRequests`, so once `maxRequests` admissions have
occurred every later call in the window rejects; and with `windowMs = 1000`,
`maxRequests = 2`, admissions at t=0 and t=400 succeed, the call at t=500
rejects, and the call at t=1001 succeeds because the t=0 entry has aged out of
the trailing window. -/
theorem rl_sliding_window_correct :
    (∀ (cfg : RLConfig) (cid : String) (t0 : Int) (ts : List Int),
        (∀ t ∈ ts, t0 ≤ t ∧ t < t0 + cfg.windowMs) →
        runCalls cfg cid [] ts =
          (List.range ts.length).map (fun i => decide (((i : Nat) : Int) < cfg.maxRequests)))
    ∧ runCalls ⟨1000, 2, "limit"⟩ "client" [] [0, 400, 500, 1001] =
        [true, true, false, true] := by
  constructor
  · intro cfg cid t0 ts hts
    rw [runCalls_empty, runCalls_window_aux cfg cid t0 ts [] hts (by simp)]
    simp
  · decide

/-- Witness for C1: three calls in one window with `maxRequests = 2` give
admit, admit, reject. -/
theorem rl_sliding_window_correct_witness :
    (∀ t ∈ ([5, 6, 7] : List Int), (5 : Int) ≤ t ∧ t < 5 + (60000 : Int)) ∧
    runCalls ⟨60000, 2, "w"⟩ "cw" [] [5, 6, 7] =
      (List.range ([5, 6, 7] : List Int).length).map
        (fun i => decide (((i : Nat) : Int) < (2 : Int))) :=
  ⟨by decide, rl_sliding_window_correct.1 ⟨60000, 2, "w"⟩ "cw" 5 [5, 6, 7] (by decide)⟩

/-- C2 counterexample: a rejected call is not free of state mutation.  With
`windowMs = 1000`, `maxRequests = 1`, stored timestamps `[0, 500]` and a call
at t=1001, the call rejects yet the aged-out timestamp 0 is pruned, so the
clientId-to-timestamps map after the call differs from the map before. -/
theorem rl_reject_mutates_cex :
    (rlStep ⟨1000, 1, "m"⟩ [("c", [0, 500])] "c" 1001).1.allowed = false
    ∧ (rlStep ⟨1000, 1, "m"⟩ [("c", [0, 500])] "c" 1001).2 ≠ [("c", [0, 500])] := by
  decide

/-- C2 amended: a rejected call never records the attempt — afterwards the
client maps to the in-window filtering of its previous timestamps, a sublist
of them (so the sequence never grows) — and every other client's entry is
untouched; but timestamps that have aged out of the window are pruned even by
a rejected call, so the map is not always identical. -/
theorem rl_reject_prunes_only (cfg : RLConfig) (st : RequestMap) (cid : String) (now : Int)
    (hrej : (rlStep cfg st cid now).1.allowed = false) :
    mapGet (rlStep cfg st cid now).2 cid = some (rlValid cfg st cid now)
    ∧ (rlValid cfg st cid now).Sublist (rlRequests st cid)
    ∧ ∀ k, k ≠ cid → mapGet (rlStep cfg st cid now).2 k = mapGet st k := by
  rw [rlStep_eq] at hrej ⊢
  by_cases hc : ((rlValid cfg st cid now).length : Int) ≥ cfg.maxRequests
  · rw [if_pos hc]
    exact ⟨mapGet_mapSet_self st cid _, List.filter_sublist _,
      fun k hk => mapGet_mapSet_ne st cid k _ hk⟩
  · rw [if_neg hc] at hrej
    simp at hrej

/-- Witness for C2 (amended) at a concrete rejected call. -/
theorem rl_reject_prunes_only_witness :
    mapGet (rlStep ⟨1000, 1, "m"⟩ [("cw2", [1, 2])] "cw2" 3).2 "cw2" =
        some (rlValid ⟨1000, 1, "m"⟩ [("cw2", [1, 2])] "cw2" 3)
    ∧ mapGet (rlStep ⟨1000, 1, "m"⟩ [("cw2", [1, 2])] "cw2" 3).2 "other" =
        mapGet [("cw2", [1, 2])] "other" :=
  ⟨(rl_reject_prunes_only ⟨1000, 1, "m"⟩ [("cw2", [1, 2])] "cw2" 3 (by decide)).1,
   (rl_reject_prunes_only ⟨1000, 1, "m"⟩ [("cw2", [1, 2])] "cw2" 3 (by decide)).2.2
     "other" (by decide)⟩

/-- C4: every admitted call appends `now` to the client's timestamps, and the
headers report `limit = maxRequests`, `remaining = maxRequests - count` where
`count` is the number of in-window timestamps at the time of the call (the
appended sequence, all of whose members are inside the trailing window), and
`reset = now + windowMs` — the values placed in `X-RateLimit-Limit`,
`X-RateLimit-Remaining` and `X-RateLimit-Reset`. -/
theorem rl_admit_appends_reports (cfg : RLConfig) (st : RequestMap) (cid : String) (now : Int)
    (hW : 0 < cfg.windowMs)
    (hadm : (rlStep cfg st cid now).1.allowed = true) :
    mapGet (rlStep cfg st cid now).2 cid = some (rlValid cfg st cid now ++ [now])
    ∧ (rlStep cfg st cid now).1.headers =
        some ⟨cfg.maxRequests,
              cfg.maxRequests - ((rlValid cfg st cid now ++ [now]).length : Int),
              now + cfg.windowMs⟩
    ∧ ∀ x ∈ rlValid cfg st cid now ++ [now], now - cfg.windowMs < x := by
  rw [rlStep_eq] at hadm ⊢
  by_cases hc : ((rlValid cfg st cid now).length : Int) ≥ cfg.maxRequests
  · rw [if_pos hc] at hadm
    simp at hadm
  · rw [if_neg hc] at hadm ⊢
    have hlen : ((rlValid cfg st cid now ++ [now]).length : Int) ≤ cfg.maxRequests := by
      rw [List.length_append, List.length_singleton]
      push_cast
      omega
    refine ⟨mapGet_mapSet_self st cid _, ?_, ?_⟩
    · show some (⟨cfg.maxRequests,
          max 0 (cfg.maxRequests - ((rlValid cfg st cid now ++ [now]).length : Int)),
          now + cfg.windowMs⟩ : RLHeaders) = _
      rw [max_eq_right (sub_nonneg.mpr hlen)]
    · intro x hx
      rcases List.mem_append.mp hx with hx | hx
      · have hx' : decide (x > now - cfg.windowMs) = true := by
          simp only [rlValid, List.mem_filter] at hx
          exact hx.2
        simp only [decide_eq_true_eq] at hx'
        omega
      · rw [List.mem_singleton.mp hx]
        omega

/-- Witness for C4 at a concrete admitted call. -/
theorem rl_admit_appends_reports_witness :
    mapGet (rlStep ⟨1000, 2, "m"⟩ [] "cw4" 10).2 "cw4" =
        some (rlValid ⟨1000, 2, "m"⟩ [] "cw4" 10 ++ [10])
    ∧ (rlStep ⟨1000, 2, "m"⟩ [] "cw4" 10).1.headers =
        some ⟨2, 2 - ((rlValid ⟨1000, 2, "m"⟩ [] "cw4" 10 ++ [(10 : Int)]).length : Int),
              10 + 1000⟩
    ∧ (10 : Int) - 1000 < 10 :=
  ⟨(rl_admit_appends_reports ⟨1000, 2, "m"⟩ [] "cw4" 10 (by decide) (by decide)).1,
   (rl_admit_appends_reports ⟨1000, 2, "m"⟩ [] "cw4" 10 (by decide) (by decide)).2.1,
   (rl_admit_appends_reports ⟨1000, 2, "m"⟩ [] "cw4" 10 (by decide) (by decide)).2.2
     10 (by decide)⟩

/-- C5 counterexample: a rejected (429) request does not receive the
rate-limit headers — the middleware returns from the rejection branch before
any `setHeader` call, so `headers = none` there. -/
theorem rl_reject_no_headers_cex :
    (rlStep ⟨1000, 2, "m"⟩ [("c5", [10, 20])] "c5" 30).1.allowed = false
    ∧ (rlStep ⟨1000, 2, "m"⟩ [("c5", [10, 20])] "c5" 30).1.rejection.isSome = true
    ∧ (rlStep ⟨1000, 2, "m"⟩ [("c5", [10, 20])] "c5" 30).1.headers = none := by
  decide

/-- C5 amended: the `X-RateLimit-Limit`, `X-RateLimit-Remaining` and
`X-RateLimit-Reset` headers are set exactly on admitted requests; a rejected
request instead carries exactly the 429 rejection response and no headers. -/
theorem rl_headers_iff_admitted (cfg : RLConfig) (st : RequestMap) (cid : String) (now : Int) :
    (rlStep cfg st cid now).1.headers.isSome = (rlStep cfg st cid now).1.allowed
    ∧ (rlStep cfg st cid now).1.rejection.isSome = !(rlStep cfg st cid now).1.allowed := by
  rw [rlStep_eq]
  by_cases hc : ((rlValid cfg st cid now).length : Int) ≥ cfg.maxRequests
  · rw [if_pos hc]
    exact ⟨rfl, rfl⟩
  · rw [if_neg hc]
    exact ⟨rfl, rfl⟩

/-- C8: on every rejection (given at least one allowed request per window and
chronologically ordered stored timestamps) the middleware responds 429 with
the JSON body `{success: false, error: <configured message>, retryAfter: "<n>
seconds"}` where `n = ceil((oldest_remaining_timestamp + windowMs - now) /
1000)` — the oldest remaining timestamp is the head of the filtered array,
which bounds every remaining timestamp from below; and for three rapid calls
with `maxRequests = 2`, `windowMs = 60000`, the third result is a rejection
with positive `retryAfterSeconds`. -/
theorem rl_reject_429_retry (cfg : RLConfig) (st : RequestMap) (cid : String) (now : Int)
    (hmax : 1 ≤ cfg.maxRequests)
    (hrej : (rlStep cfg st cid now).1.allowed = false)
    (hsorted : (rlRequests st cid).Pairwise (· ≤ ·)) :
    (rlStep cfg st cid now).1.rejection =
      some ⟨429, false, cfg.message,
            ceilDiv ((rlValid cfg st cid now).headD 0 + cfg.windowMs - now) 1000,
            toString (ceilDiv ((rlValid cfg st cid now).headD 0 + cfg.windowMs - now) 1000)
              ++ " seconds"⟩
    ∧ rlValid cfg st cid now ≠ []
    ∧ (∀ x ∈ rlValid cfg st cid now, (rlValid cfg st cid now).headD 0 ≤ x)
    ∧ ((rlStep ⟨60000, 2, "m"⟩
          ((rlStep ⟨60000, 2, "m"⟩ ((rlStep ⟨60000, 2, "m"⟩ [] "c8" 0).2) "c8" 0).2)
          "c8" 0).1.rejection.map (fun rej => decide (0 < rej.retryAfterSeconds))) =
        some true := by
  rw [rlStep_eq] at hrej ⊢
  by_cases hc : ((rlValid cfg st cid now).length : Int) ≥ cfg.maxRequests
  · rw [if_pos hc]
    have hne : rlValid cfg st cid now ≠ [] := by
      intro h
      rw [h] at hc
      simp at hc
      omega
    exact ⟨rfl, hne, headD_le_of_sorted _ (hsorted.sublist (List.filter_sublist _)), by decide⟩
  · rw [if_neg hc] at hrej
    simp at hrej

/-- Witness for C8 at a concrete rejected call. -/
theorem rl_reject_429_retry_witness :
    (rlStep ⟨1000, 1, "m8"⟩ [("w8", [100])] "w8" 200).1.rejection =
      some ⟨429, false, "m8",
            ceilDiv ((rlValid ⟨1000, 1, "m8"⟩ [("w8", [100])] "w8" 200).headD 0 + 1000 - 200) 1000,
            toString (ceilDiv ((rlValid ⟨1000, 1, "m8"⟩ [("w8", [100])] "w8" 200).headD 0
              + 1000 - 200) 1000) ++ " seconds"⟩
    ∧ rlValid ⟨1000, 1, "m8"⟩ [("w8", [100])] "w8" 200 ≠ [] :=
  ⟨(rl_reject_429_retry ⟨1000, 1, "m8"⟩ [("w8", [100])] "w8" 200
      (by decide) (by decide) (by decide)).1,
   (rl_reject_429_retry ⟨1000, 1, "m8"⟩ [("w8", [100])] "w8" 200
      (by decide) (by decide) (by decide)).2.1⟩

/-- C6: lazy expiry.  For every key whose entry has expired (`now` past
`expiresAt`), `get` returns the absent sentinel and removes exactly that
entry from the map (no `cleanExpired` call needed), and `has` applies the same
check, returning `false` and evicting the entry without returning the
value. -/
theorem cache_lazy_expiry (c : Cache) (key : String) (item : CacheEntry) (now : Int)
    (hnd : keysNodup c) (hfind : mapGet c key = some item) (hexp : now > item.expiresAt) :
    (CacheService.get c key now).1 = JsVal.vnull
    ∧ mapGet (CacheService.get c key now).2 key = none
    ∧ (∀ k, k ≠ key → mapGet (CacheService.get c key now).2 k = mapGet c k)
    ∧ (CacheService.has c key now).1 = false
    ∧ mapGet (CacheService.has c key now).2 key = none := by
  have hget : CacheService.get c key now = (JsVal.vnull, mapDelete c key) := by
    simp [CacheService.get, hfind, hexp]
  have hhas : CacheService.has c key now = (false, mapDelete c key) := by
    simp [CacheService.has, hfind, hexp]
  rw [hget, hhas]
  exact ⟨rfl, mapGet_mapDelete_self c key hnd,
    fun k hk => mapGet_mapDelete_ne c key k hk,
    rfl, mapGet_mapDelete_self c key hnd⟩

/-- Witness for C6 at a concrete expired entry. -/
theorem cache_lazy_expiry_witness :
    (CacheService.get [("k6", ⟨JsVal.vnum 1, 10, 0⟩)] "k6" 11).1 = JsVal.vnull
    ∧ mapGet (CacheService.get [("k6", ⟨JsVal.vnum 1, 10, 0⟩)] "k6" 11).2 "k6" = none
    ∧ mapGet (CacheService.get [("k6", ⟨JsVal.vnum 1, 10, 0⟩)] "k6" 11).2 "z" =
        mapGet [("k6", ⟨JsVal.vnum 1, 10, 0⟩)] "z"
    ∧ (CacheService.has [("k6", ⟨JsVal.vnum 1, 10, 0⟩)] "k6" 11).1 = false :=
  ⟨(cache_lazy_expiry [("k6", ⟨JsVal.vnum 1, 10, 0⟩)] "k6" ⟨JsVal.vnum 1, 10, 0⟩ 11
      (by decide) (by decide) (by decide)).1,
   (cache_lazy_expiry [("k6", ⟨JsVal.vnum 1, 10, 0⟩)] "k6" ⟨JsVal.vnum 1, 10, 0⟩ 11
      (by decide) (by decide) (by decide)).2.1,
   (cache_lazy_expiry [("k6", ⟨JsVal.vnum 1, 10, 0⟩)] "k6" ⟨JsVal.vnum 1, 10, 0⟩ 11
      (by decide) (by decide) (by decide)).2.2.1 "z" (by decide),
   (cache_lazy_expiry [("k6", ⟨JsVal.vnum 1, 10, 0⟩)] "k6" ⟨JsVal.vnum 1, 10, 0⟩ 11
      (by decide) (by decide) (by decide)).2.2.2.1⟩

/-- C7: `cleanExpired` removes exactly the entries with `expiresAt < now`,
keeps every other entry unchanged (same key, value, createdAt, expiresAt, in
order), and returns the number of entries removed. -/
theorem cleanExpired_exact (c : Cache) (now : Int) (hnd : keysNodup c) :
    (CacheService.cleanExpired c now).2 = c.filter (fun e => !decide (now > e.2.expiresAt))
    ∧ (CacheService.cleanExpired c now).1 = c.countP (fun e => decide (now > e.2.expiresAt))
    ∧ ∀ k, mapGet (CacheService.cleanExpired c now).2 k =
        (mapGet c k).bind (fun item => if now > item.expiresAt then none else some item) :=
  ⟨(cleanExpired_filter_count c now).1, (cleanExpired_filter_count c now).2,
   mapGet_cleanExpired c now hnd⟩

/-- Witness for C7 on a cache holding one expired and one live entry. -/
theorem cleanExpired_exact_witness :
    (CacheService.cleanExpired
        [("a", ⟨JsVal.vnum 1, 5, 0⟩), ("b", ⟨JsVal.vnum 2, 100, 0⟩)] 10).2 =
      ([("a", ⟨JsVal.vnum 1, 5, 0⟩), ("b", ⟨JsVal.vnum 2, 100, 0⟩)] : Cache).filter
        (fun e => !decide ((10 : Int) > e.2.expiresAt))
    ∧ (CacheService.cleanExpired
        [("a", ⟨JsVal.vnum 1, 5, 0⟩), ("b", ⟨JsVal.vnum 2, 100, 0⟩)] 10).1 =
      ([("a", ⟨JsVal.vnum 1, 5, 0⟩), ("b", ⟨JsVal.vnum 2, 100, 0⟩)] : Cache).countP
        (fun e => decide ((10 : Int) > e.2.expiresAt))
    ∧ mapGet (CacheService.cleanExpired
        [("a", ⟨JsVal.vnum 1, 5, 0⟩), ("b", ⟨JsVal.vnum 2, 100, 0⟩)] 10).2 "a" =
      (mapGet [("a", ⟨JsVal.vnum 1, 5, 0⟩), ("b", ⟨JsVal.vnum 2, 100, 0⟩)] "a").bind
        (fun item => if (10 : Int) > item.expiresAt then none else some item) :=
  ⟨(cleanExpired_exact [("a", ⟨JsVal.vnum 1, 5, 0⟩), ("b", ⟨JsVal.vnum 2, 100, 0⟩)] 10
      (by decide)).1,
   (cleanExpired_exact [("a", ⟨JsVal.vnum 1, 5, 0⟩), ("b", ⟨JsVal.vnum 2, 100, 0⟩)] 10
      (by decide)).2.1,
   (cleanExpired_exact [("a", ⟨JsVal.vnum 1, 5, 0⟩), ("b", ⟨JsVal.vnum 2, 100, 0⟩)] 10
      (by decide)).2.2 "a"⟩

/-- C3 counterexample: storing `null` breaks the supplier-call-count property.
A first `getOrSet` whose supplier produces `null` stores it, yet a second
`getOrSet` 1ms later with `ttl = 1000` invokes its supplier again — two calls
1ms apart give a supplier call count of 2, not 1, for this stored value. -/
theorem getOrSet_null_twice_cex :
    (CacheService.getOrSet [] "k" JsVal.vnull 1000 0).2.1 = true
    ∧ (CacheService.getOrSet (CacheService.getOrSet [] "k" JsVal.vnull 1000 0).2.2
        "k" (JsVal.vnum 7) 1000 1).2.1 = true := by
  decide

/-- C3 amended: `getOrSet` returns the cached value without invoking the
supplier when a live entry with a non-null value exists; otherwise it invokes
the supplier, stores the produced value under the key with the given ttl, and
returns it; and for every stored non-null value, a second call within `ttl` of
the first does not invoke the supplier again. -/
theorem getOrSet_cache_aside (c : Cache) (key : String) (item : CacheEntry)
    (s s2 : JsVal) (ttl now now2 : Int) :
    (mapGet c key = some item → ¬ now > item.expiresAt → item.value ≠ JsVal.vnull →
      CacheService.getOrSet c key s ttl now = (item.value, false, c))
    ∧ (mapGet c key = none →
      CacheService.getOrSet c key s ttl now = (s, true, mapSet c key ⟨s, now + ttl, now⟩))
    ∧ (mapGet c key = none → s ≠ JsVal.vnull → now2 ≤ now + ttl →
      (CacheService.getOrSet (CacheService.getOrSet c key s ttl now).2.2
          key s2 ttl now2).2.1 = false
      ∧ (CacheService.getOrSet (CacheService.getOrSet c key s ttl now).2.2
          key s2 ttl now2).1 = s) := by
  refine ⟨getOrSet_hit c key item s ttl now, getOrSet_miss c key s ttl now, ?_⟩
  intro hmiss hnn hlive2
  have h1 := getOrSet_miss c key s ttl now hmiss
  rw [h1]
  have h2 := getOrSet_hit (mapSet c key ⟨s, now + ttl, now⟩) key ⟨s, now + ttl, now⟩
      s2 ttl now2 (mapGet_mapSet_self c key _) (show ¬ now2 > now + ttl by omega) hnn
  constructor
  · show (CacheService.getOrSet (mapSet c key ⟨s, now + ttl, now⟩) key s2 ttl now2).2.1 = false
    rw [h2]
  · show (CacheService.getOrSet (mapSet c key ⟨s, now + ttl, now⟩) key s2 ttl now2).1 = s
    rw [h2]

/-- Witness for C3 (amended): a hit on a live non-null entry, and the
one-supplier-call property over two calls 1ms apart with `ttl = 1000`. -/
theorem getOrSet_cache_aside_witness :
    CacheService.getOrSet [("k3", ⟨JsVal.vnum 5, 100, 0⟩)] "k3" (JsVal.vnum 9) 1000 50 =
      (JsVal.vnum 5, false, [("k3", ⟨JsVal.vnum 5, 100, 0⟩)])
    ∧ (CacheService.getOrSet (CacheService.getOrSet [] "k4" (JsVal.vnum 1) 1000 0).2.2
        "k4" (JsVal.vnum 2) 1000 1).2.1 = false :=
  ⟨(getOrSet_cache_aside [("k3", ⟨JsVal.vnum 5, 100, 0⟩)] "k3" ⟨JsVal.vnum 5, 100, 0⟩
      (JsVal.vnum 9) (JsVal.vnum 9) 1000 50 50).1 (by decide) (by decide) (by decide),
   ((getOrSet_cache_aside [] "k4" ⟨JsVal.vnull, 0, 0⟩ (JsVal.vnum 1) (JsVal.vnum 2)
      1000 0 1).2.2 (by decide) (by decide) (by decide)).1⟩

/-- C10: a stored null value is conflated with absence.  While a `null`-valued
entry is live, `get` returns the absent sentinel without evicting it, `has`
returns `true`, and `getOrSet` invokes its supplier again despite the live
entry, returning the supplier's value. -/
theorem cache_null_conflated (c : Cache) (key : String) (item : CacheEntry) (s : JsVal)
    (ttl now : Int) (hfind : mapGet c key = some item) (hlive : ¬ now > item.expiresAt)
    (hnull : item.value = JsVal.vnull) :
    CacheService.get c key now = (JsVal.vnull, c)
    ∧ CacheService.has c key now = (true, c)
    ∧ (CacheService.getOrSet c key s ttl now).2.1 = true
    ∧ (CacheService.getOrSet c key s ttl now).1 = s := by
  have hget : CacheService.get c key now = (JsVal.vnull, c) := by
    simp [CacheService.get, hfind, hlive, hnull]
  refine ⟨hget, ?_, ?_, ?_⟩
  · simp [CacheService.has, hfind, hlive]
  · simp [CacheService.getOrSet, hget]
  · simp [CacheService.getOrSet, hget]

/-- Witness for C10 at a concrete live null entry. -/
theorem cache_null_conflated_witness :
    CacheService.get [("kn", ⟨JsVal.vnull, 100, 0⟩)] "kn" 10 =
      (JsVal.vnull, [("kn", ⟨JsVal.vnull, 100, 0⟩)])
    ∧ CacheService.has [("kn", ⟨JsVal.vnull, 100, 0⟩)] "kn" 10 =
      (true, [("kn", ⟨JsVal.vnull, 100, 0⟩)])
    ∧ (CacheService.getOrSet [("kn", ⟨JsVal.vnull, 100, 0⟩)] "kn" (JsVal.vnum 3) 50 10).2.1 =
      true :=
  ⟨(cache_null_conflated [("kn", ⟨JsVal.vnull, 100, 0⟩)] "kn" ⟨JsVal.vnull, 100, 0⟩
      (JsVal.vnum 3) 50 10 (by decide) (by decide) (by decide)).1,
   (cache_null_conflated [("kn", ⟨JsVal.vnull, 100, 0⟩)] "kn" ⟨JsVal.vnull, 100, 0⟩
      (JsVal.vnum 3) 50 10 (by decide) (by decide) (by decide)).2.1,
   (cache_null_conflated [("kn", ⟨JsVal.vnull, 100, 0⟩)] "kn" ⟨JsVal.vnull, 100, 0⟩
      (JsVal.vnum 3) 50 10 (by decide) (by decide) (by decide)).2.2.1⟩

/-- C9 counterexample: construction with non-positive `windowMs` does not
raise — `createRateLimiter` returns a middleware for `windowMs = 0`, and that
limiter silently admits a request even for a client with 150 recorded
timestamps (every stored timestamp falls outside the empty window, so the
quota never binds). -/
theorem rl_no_failfast_cex :
    (createRateLimiter ⟨some 0, none, none⟩).isOk = true
    ∧ (rlStep ⟨0, 100, "m"⟩ [("c9", List.replicate 150 0)] "c9" 0).1.allowed = true := by
  decide

/-- C9 amended: neither component validates its configuration.
`createRateLimiter` succeeds for every options object, including a
non-positive `windowMs`; such a limiter admits every call whose client's
recorded timestamps lie in the past, since the window filter empties the
array and the quota never binds; and the cache's `set` accepts any `ttl`
(including non-positive values), silently storing an entry with
`expiresAt = now + ttl`. -/
theorem rl_no_construction_validation (opts : RLOptions) (cfg : RLConfig) (st : RequestMap)
    (cid : String) (c : Cache) (key : String) (v : JsVal) (ttl now : Int)
    (hW : cfg.windowMs ≤ 0) (hM : 0 < cfg.maxRequests)
    (hpast : ∀ x ∈ rlRequests st cid, x ≤ now) :
    (createRateLimiter opts).isOk = true
    ∧ (rlStep cfg st cid now).1.allowed = true
    ∧ mapGet (CacheService.set c key v ttl now) key = some ⟨v, now + ttl, now⟩ := by
  refine ⟨rfl, ?_, mapGet_mapSet_self c key _⟩
  have hvalid : rlValid cfg st cid now = [] := by
    simp only [rlValid]
    refine List.filter_eq_nil_iff.mpr (fun x hx => ?_)
    have hx' := hpast x hx
    simp only [decide_eq_true_eq]
    omega
  rw [rlStep_eq, hvalid, if_neg (by simp; omega)]

/-- Witness for C9 (amended) at concrete inputs. -/
theorem rl_no_construction_validation_witness :
    (createRateLimiter ⟨some 0, none, none⟩).isOk = true
    ∧ (rlStep ⟨0, 100, "m9"⟩ [("c9w", [0, 3])] "c9w" 5).1.allowed = true
    ∧ mapGet (CacheService.set [] "k9" (JsVal.vnum 1) (-5) 5) "k9" =
        some ⟨JsVal.vnum 1, 5 + (-5), 5⟩ :=
  rl_no_construction_validation ⟨some 0, none, none⟩ ⟨0, 100, "m9"⟩ [("c9w", [0, 3])]
    "c9w" [] "k9" (JsVal.vnum 1) (-5) 5 (by decide) (by decide) (by decide)
